import Mathlib

/-!
# i2pcpp: SSU fragment reassembly and session establishment

A shallow embedding of two translation units of the router:

* `src/ssu/InboundMessageState.cpp`: the per-message fragment buffer
  (`addFragment`, `markFragmentAckd`, `allFragmentsReceived`,
  `allFragmentsAckd`, `assemble`);
* `src/transport/ssu/EstablishmentManager.cpp`: the handshake state table, its
  timers and the continuations posted onto the transport's event loop.

Conventions: `unsigned char` fragment numbers are natural numbers, and the
reachability relations only feed values below 256; a `std::map` is an
association list kept in ascending key order; a call whose C++ behaviour is
undefined (an out-of-range bit or buffer access) returns `none`.
-/

namespace i2pcpp
namespace SSU

/-! ## InboundMessageState -/

/-- One octet. -/
abbrev Byte := Fin 256

/-- The `ByteArray` of the sources: a vector of octets. -/
abbrev ByteArray := List Byte

/-- The `std::map<unsigned char, ByteArray>` holding the fragments: an
association list whose keys ascend, which is the order a `std::map` iterates in. -/
abbrev FragMap := List (Nat × ByteArray)

/-- Lookup of a key: `m_fragments.find(k)`. -/
def mapFind : FragMap → Nat → Option ByteArray
  | [], _ => none
  | (k', v) :: rest, k => if k' = k then some v else mapFind rest k

/-- The number of entries under a key, `m_fragments.count(k)`: 0 or 1. -/
def mapCount (m : FragMap) (k : Nat) : Nat :=
  match mapFind m k with
  | some _ => 1
  | none => 0

/-- The assignment `m_fragments[k] = v`: the entry is created at its place in
key order, or overwritten when the key is already there. -/
def mapAssign : FragMap → Nat → ByteArray → FragMap
  | [], k, v => [(k, v)]
  | (k', v') :: rest, k, v =>
    if k < k' then (k, v) :: (k', v') :: rest
    else if k = k' then (k, v) :: rest
    else (k', v') :: mapAssign rest k v

/-- Modelled from the spec: the ACK bitmap `m_fragmentAckStates`, whose type is
declared in `InboundMessageState.h` (absent); the calls made on it (`size`,
`resize`, `set`, `count`) are those of a dynamic bitset, kept here as the list
of its bits. `resize n` truncates or pads with cleared bits. -/
def bitsResize (bs : List Bool) (n : Nat) : List Bool :=
  bs.take n ++ List.replicate (n - bs.length) false

/-- The call `set(n)` on the bitmap: bit `n` is set when `n` is below the size;
an index at or beyond the size is an out-of-range access, `none`. -/
def bitsSet (bs : List Bool) (n : Nat) : Option (List Bool) :=
  if n < bs.length then some (bs.set n true) else none

/-- The number of set bits, `count()`. -/
def bitsCount (bs : List Bool) : Nat := bs.count true

/-- The members of `InboundMessageState`. -/
structure InboundMessageState where
  fragments : FragMap
  gotLast : Bool
  lastFragment : Nat
  fragmentAckStates : List Bool
  byteTotal : Nat
deriving DecidableEq, Repr

/-- Modelled from the spec: the freshly constructed state (the constructor is in
`InboundMessageState.h`, absent): no fragment, `got_last` false, an empty ACK
bitmap and a zero `byte_total`. `lastFragment` is not read while `gotLast` is
false. -/
def InboundMessageState.empty : InboundMessageState :=
  { fragments := [], gotLast := false, lastFragment := 0,
    fragmentAckStates := [], byteTotal := 0 }

/-- `InboundMessageState::addFragment` (InboundMessageState.cpp, lines 5-24). -/
def addFragment (s : InboundMessageState) (fragNum : Nat) (data : ByteArray)
    (isLast : Bool) : InboundMessageState :=
  if s.gotLast && decide (fragNum > s.lastFragment) then s
  else if mapCount s.fragments fragNum > 0 then s
  else
    let s1 := { s with fragments := mapAssign s.fragments fragNum data }
    let s2 := if isLast then { s1 with gotLast := true, lastFragment := fragNum } else s1
    let s3 :=
      if s2.fragmentAckStates.length < fragNum then
        { s2 with fragmentAckStates := bitsResize s2.fragmentAckStates fragNum }
      else s2
    { s3 with byteTotal := s3.byteTotal + data.length }

/-- `InboundMessageState::markFragmentAckd` (lines 26-29): `none` when the bit
is out of the bitmap's range. -/
def markFragmentAckd (s : InboundMessageState) (fragNum : Nat) :
    Option InboundMessageState :=
  match bitsSet s.fragmentAckStates fragNum with
  | some bs => some { s with fragmentAckStates := bs }
  | none => none

/-- `InboundMessageState::allFragmentsReceived` (lines 31-39): the loop runs
over `f = 0 .. lastFragment - 1` and leaves at the first absent index. -/
def allFragmentsReceived (s : InboundMessageState) : Bool :=
  if !s.gotLast then false
  else (List.range s.lastFragment).all fun f => !decide (mapCount s.fragments f < 1)

/-- `InboundMessageState::allFragmentsAckd` (lines 41-44). -/
def allFragmentsAckd (s : InboundMessageState) : Bool :=
  decide (bitsCount s.fragmentAckStates = s.fragmentAckStates.length)

/-- The call `copy(f.cbegin(), f.cend(), itr)` with `itr` at offset `off` of
`dst`: `none` when the copy would write past the end of `dst`. -/
def copyAt (dst : ByteArray) (off : Nat) (src : ByteArray) : Option ByteArray :=
  if off + src.length ≤ dst.length then
    some (dst.take off ++ src ++ dst.drop (off + src.length))
  else none

/-- The loop of `assemble` over the map, in key order, with the write offset. -/
def assembleLoop : FragMap → ByteArray → Nat → Option ByteArray
  | [], dst, _ => some dst
  | (_, f) :: rest, dst, itr =>
    match copyAt dst itr f with
    | none => none
    | some dst' => assembleLoop rest dst' (itr + f.length)

/-- `InboundMessageState::assemble` (lines 46-61): a zeroed buffer of
`byteTotal` octets, filled fragment by fragment. (The `if(!this)` test of the
source never fires on an object.) -/
def assemble (s : InboundMessageState) : Option ByteArray :=
  assembleLoop s.fragments (List.replicate s.byteTotal 0) 0

/-- The states the receive path can build: from the empty state by
`addFragment` calls with any `unsigned char` number, any data, any flag. -/
inductive Reachable : InboundMessageState → Prop
  | empty : Reachable InboundMessageState.empty
  | add (s : InboundMessageState) (fragNum : Nat) (data : ByteArray) (isLast : Bool) :
      Reachable s → fragNum < 256 → Reachable (addFragment s fragNum data isLast)

/-- A call made on a state by the receive path or the ACK scheduler. -/
inductive Call where
  | add (fragNum : Nat) (data : ByteArray) (isLast : Bool)
  | ack (fragNum : Nat)
deriving DecidableEq, Repr

/-- One call. -/
def applyCall (s : InboundMessageState) : Call → Option InboundMessageState
  | Call.add f d l => some (addFragment s f d l)
  | Call.ack f => markFragmentAckd s f

/-- A sequence of calls, left to right. -/
def applyCalls : InboundMessageState → List Call → Option InboundMessageState
  | s, [] => some s
  | s, c :: cs =>
    match applyCall s c with
    | some s' => applyCalls s' cs
    | none => none

/-- Delivery of the pieces of a split byte string: piece `i` is handed to
`addFragment` under number `i`, flagged last exactly when `i` is the highest
index, in the order given. -/
def deliver (pieces : List ByteArray) (order : List Nat) : InboundMessageState :=
  order.foldl
    (fun s i => addFragment s i (pieces.getD i []) (decide (i + 1 = pieces.length)))
    InboundMessageState.empty

/-- The sum of the lengths of the stored fragments. -/
def storedBytes (m : FragMap) : Nat := (m.map fun p => p.2.length).sum

/-- The representation invariant of a state: the map's keys ascend strictly,
`byteTotal` is the number of stored octets, and the fragment flagged last is
stored. -/
def WellFormed (s : InboundMessageState) : Prop :=
  (s.fragments.map Prod.fst).Pairwise (· < ·) ∧
  s.byteTotal = storedBytes s.fragments ∧
  (s.gotLast = true → s.lastFragment ∈ s.fragments.map Prod.fst)

/-- The invariant of a delivery in progress: `done` lists the numbers handed
over so far; exactly those are stored, each with its own piece, and the last
flag has been seen exactly when the highest index has been handed over. -/
def DeliverInv (pieces : List ByteArray) (s : InboundMessageState) (done : List Nat) : Prop :=
  WellFormed s ∧
  (∀ p ∈ s.fragments, p.1 ∈ done ∧ p.2 = pieces.getD p.1 []) ∧
  (∀ i ∈ done, i ∈ s.fragments.map Prod.fst) ∧
  (s.gotLast = true → s.lastFragment + 1 = pieces.length) ∧
  (pieces.length - 1 ∈ done → s.gotLast = true)

/-! ## EstablishmentManager -/

/-- Modelled from the spec: `Endpoint` is the pair `(ip, udp_port)` (its class
is declared in `Endpoint.h`, absent); two endpoints are the same key of a table
when both components agree. -/
structure Endpoint where
  ip : Nat
  port : Nat
deriving DecidableEq, Repr

/-- The 32-octet hash of a router identity, `getTheirIdentity().getHash()`, as
an abstract value. -/
abbrev RouterHash := Nat

/-- The phases of `EstablishmentState`, as named in `stateChanged`. -/
inductive Phase where
  | UNKNOWN
  | REQUEST_SENT
  | REQUEST_RECEIVED
  | CREATED_SENT
  | CREATED_RECEIVED
  | CONFIRMED_SENT
  | CONFIRMED_RECEIVED
  | FAILURE
deriving DecidableEq, Repr

/-- The direction of a handshake. -/
inductive Direction where
  | INBOUND
  | OUTBOUND
deriving DecidableEq, Repr

/-- What the manager reads and writes of an `EstablishmentState` object. The
two signature checks are cryptography outside the manager: the object carries
the answer each would give. Key material and packet contents are left out; no
table, signal or phase depends on them. -/
structure EstablishmentState where
  theirEndpoint : Endpoint
  theirIdentity : RouterHash
  direction : Direction
  state : Phase
  verifyCreationSignature : Bool
  verifyConfirmationSignature : Bool
deriving DecidableEq, Repr

/-- A `deadline_timer` bound to `timeoutCallback`: its identity, its duration
in seconds and the state handed to the callback. -/
structure Timer where
  id : Nat
  seconds : Nat
  target : Nat
deriving DecidableEq, Repr

/-- A continuation posted on the transport's event loop. -/
inductive Continuation where
  | stateChanged (es : Nat)
  | establishedSignal (rh : RouterHash) (inbound : Bool)
  | failureSignal (rh : RouterHash)
deriving DecidableEq, Repr

/-- A signal delivered to the subscribers. -/
inductive Signal where
  | established (rh : RouterHash) (inbound : Bool)
  | failure (rh : RouterHash)
deriving DecidableEq, Repr

/-- A `PeerState` as built in `processCreated` and `processConfirmed`. -/
structure PeerState where
  endpoint : Endpoint
  identity : RouterHash
deriving DecidableEq, Repr

/-- The kind of packet handed to `sendPacket`. -/
inductive PacketKind where
  | sessionRequest
  | sessionCreated
  | sessionConfirmed
deriving DecidableEq, Repr

/-- Lookup in a table keyed by `Endpoint`: `find`. -/
def tableFind {β : Type} : List (Endpoint × β) → Endpoint → Option β
  | [], _ => none
  | (k, v) :: rest, ep => if k = ep then some v else tableFind rest ep

/-- Removal of a key: `erase(ep)`. -/
def tableErase {β : Type} (t : List (Endpoint × β)) (ep : Endpoint) : List (Endpoint × β) :=
  t.filter fun p => !decide (p.1 = ep)

/-- Assignment `table[ep] = v`: the entry is created or replaced. -/
def tableSet {β : Type} (t : List (Endpoint × β)) (ep : Endpoint) (v : β) :
    List (Endpoint × β) :=
  (ep, v) :: tableErase t ep

/-- The duration `boost::posix_time::time_duration(h, m, s)`, in seconds. -/
def time_duration (h m s : Nat) : Nat := h * 3600 + m * 60 + s

/-- The manager together with the parts of the transport it acts on.
`objects` is the heap of `EstablishmentState` objects behind the shared
pointers (a pointer is a natural number, `nextObject` the next free one);
`stateTable` and `stateTimers` are `m_stateTable` and `m_stateTimers` (a timer
entry may hold a null pointer, `none`); `cancelled` lists the timers on which
`cancel()` was called; `queue` is the event loop's queue of posted
continuations; `peers` lists the arguments of `addRemotePeer`, `sent` those of
`sendPacket`, `signals` the signals delivered, each in call order. -/
structure Manager where
  objects : Nat → EstablishmentState
  nextObject : Nat
  stateTable : List (Endpoint × Nat)
  stateTimers : List (Endpoint × Option Timer)
  nextTimer : Nat
  cancelled : List Nat
  queue : List Continuation
  peers : List PeerState
  sent : List (PacketKind × Endpoint)
  signals : List Signal

/-- The manager after its constructor (lines 11-15): both tables empty. -/
def Manager.init : Manager :=
  { objects := fun _ =>
      { theirEndpoint := { ip := 0, port := 0 }, theirIdentity := 0,
        direction := Direction.INBOUND, state := Phase.UNKNOWN,
        verifyCreationSignature := false, verifyConfirmationSignature := false }
    nextObject := 0, stateTable := [], stateTimers := [], nextTimer := 0,
    cancelled := [], queue := [], peers := [], sent := [], signals := [] }

/-- The call `m_transport.post(c)`: the continuation goes to the back of the queue. -/
def postContinuation (m : Manager) (c : Continuation) : Manager :=
  { m with queue := m.queue ++ [c] }

/-- `EstablishmentManager::post` (lines 50-53). -/
def post (m : Manager) (es : Nat) : Manager :=
  postContinuation m (Continuation.stateChanged es)

/-- The call `es->setState(p)` through the shared pointer. -/
def setState (m : Manager) (es : Nat) (p : Phase) : Manager :=
  { m with objects := Function.update m.objects es { m.objects es with state := p } }

/-- The call `m_transport.sendPacket(p)`. -/
def sendPacket (m : Manager) (k : PacketKind) (ep : Endpoint) : Manager :=
  { m with sent := m.sent ++ [(k, ep)] }

/-- The call `m_transport.m_peers.addRemotePeer(ps)`. -/
def addRemotePeer (m : Manager) (ps : PeerState) : Manager :=
  { m with peers := m.peers ++ [ps] }

/-- `EstablishmentManager::delState` (lines 117-128). The read
`m_stateTimers[ep]` creates a null entry when the endpoint has none; a non-null
timer is cancelled and its entry erased; the state entry is erased. -/
def delState (m : Manager) (ep : Endpoint) : Manager :=
  match tableFind m.stateTimers ep with
  | some (some timer) =>
    { m with cancelled := m.cancelled ++ [timer.id]
             stateTimers := tableErase m.stateTimers ep
             stateTable := tableErase m.stateTable ep }
  | some none => { m with stateTable := tableErase m.stateTable ep }
  | none =>
    { m with stateTimers := m.stateTimers ++ [(ep, none)]
             stateTable := tableErase m.stateTable ep }

/-- `EstablishmentManager::timeoutCallback` (lines 130-139); `e` is true when
the error code is set (the wait was aborted). -/
def timeoutCallback (m : Manager) (e : Bool) (es : Nat) : Manager :=
  if !e then post (setState m es Phase.FAILURE) es else m

/-- `EstablishmentManager::sendRequest` (lines 141-150). -/
def sendRequest (m : Manager) (es : Nat) : Manager :=
  post
    (setState (sendPacket m PacketKind.sessionRequest (m.objects es).theirEndpoint) es
      Phase.REQUEST_SENT)
    es

/-- The timer set up in both `createState` overloads: a new `deadline_timer`
of `time_duration(0, 0, 10)` waiting with `timeoutCallback` bound to `es`,
stored under `m_stateTimers[ep]`. -/
def armTimer (m : Manager) (ep : Endpoint) (es : Nat) : Manager :=
  { m with
    stateTimers := tableSet m.stateTimers ep
      (some { id := m.nextTimer, seconds := time_duration 0 0 10, target := es })
    nextTimer := m.nextTimer + 1 }

/-- Allocation by `std::make_shared<EstablishmentState>` and the assignment
`m_stateTable[ep] = es`. -/
def registerState (m : Manager) (ep : Endpoint) (obj : EstablishmentState) : Manager :=
  { m with objects := Function.update m.objects m.nextObject obj
           nextObject := m.nextObject + 1
           stateTable := tableSet m.stateTable ep m.nextObject }

/-- `EstablishmentManager::createState(ep)` (lines 17-29). Modelled from the
spec: the constructor of `EstablishmentState` (absent) keeps the endpoint it is
given; `fresh` stands for the rest of the object as the constructor leaves it.
Returns the manager and the new pointer. -/
def createState (m : Manager) (ep : Endpoint) (fresh : EstablishmentState) : Manager × Nat :=
  let es := m.nextObject
  let m1 := registerState m ep { fresh with theirEndpoint := ep }
  (armTimer m1 ep es, es)

/-- `EstablishmentManager::createState(ep, ri)` (lines 31-43); the constructor
also keeps the identity it is given. -/
def createStateWith (m : Manager) (ep : Endpoint) (ri : RouterHash)
    (fresh : EstablishmentState) : Manager :=
  let es := m.nextObject
  let m1 := registerState m ep { fresh with theirEndpoint := ep, theirIdentity := ri }
  let m2 := sendRequest m1 es
  armTimer m2 ep es

/-- `EstablishmentManager::stateExists` (lines 45-48). -/
def stateExists (m : Manager) (ep : Endpoint) : Bool :=
  (tableFind m.stateTable ep).isSome

/-- `EstablishmentManager::getState` (lines 104-115): `none` is the null pointer. -/
def getState (m : Manager) (ep : Endpoint) : Option Nat :=
  tableFind m.stateTable ep

/-- `EstablishmentManager::processRequest` (lines 152-171). -/
def processRequest (m : Manager) (es : Nat) : Manager :=
  post
    (setState (sendPacket m PacketKind.sessionCreated (m.objects es).theirEndpoint) es
      Phase.CREATED_SENT)
    es

/-- `EstablishmentManager::processCreated` (lines 173-204). -/
def processCreated (m : Manager) (es : Nat) : Manager :=
  if !(m.objects es).verifyCreationSignature then
    setState m es Phase.FAILURE
  else
    let ep := (m.objects es).theirEndpoint
    let m1 := addRemotePeer m { endpoint := ep, identity := (m.objects es).theirIdentity }
    let m2 := sendPacket m1 PacketKind.sessionConfirmed ep
    post (setState m2 es Phase.CONFIRMED_SENT) es

/-- `EstablishmentManager::processConfirmed` (lines 206-228). -/
def processConfirmed (m : Manager) (es : Nat) : Manager :=
  if !(m.objects es).verifyConfirmationSignature then
    post (setState m es Phase.FAILURE) es
  else
    let ep := (m.objects es).theirEndpoint
    let m1 := addRemotePeer m { endpoint := ep, identity := (m.objects es).theirIdentity }
    let m2 := delState m1 ep
    postContinuation m2
      (Continuation.establishedSignal (m.objects es).theirIdentity
        (decide ((m.objects es).direction = Direction.INBOUND)))

/-- `EstablishmentManager::stateChanged` (lines 55-102). -/
def stateChanged (m : Manager) (es : Nat) : Manager :=
  let ep := (m.objects es).theirEndpoint
  match (m.objects es).state with
  | Phase.REQUEST_SENT => m
  | Phase.REQUEST_RECEIVED => processRequest m es
  | Phase.CREATED_SENT => m
  | Phase.CREATED_RECEIVED => processCreated m es
  | Phase.CONFIRMED_SENT =>
    delState
      (postContinuation m
        (Continuation.establishedSignal (m.objects es).theirIdentity
          (decide ((m.objects es).direction = Direction.INBOUND))))
      ep
  | Phase.CONFIRMED_RECEIVED => processConfirmed m es
  | Phase.UNKNOWN => delState (postContinuation m
      (Continuation.failureSignal (m.objects es).theirIdentity)) ep
  | Phase.FAILURE => delState (postContinuation m
      (Continuation.failureSignal (m.objects es).theirIdentity)) ep

/-- One continuation run by the event loop. -/
def runContinuation (m : Manager) : Continuation → Manager
  | Continuation.stateChanged es => stateChanged m es
  | Continuation.establishedSignal rh inbound =>
    { m with signals := m.signals ++ [Signal.established rh inbound] }
  | Continuation.failureSignal rh =>
    { m with signals := m.signals ++ [Signal.failure rh] }

/-- The event loop: the continuation at the front of the queue is taken off and
run, until the queue is empty or `fuel` continuations have run. -/
def runLoop : Nat → Manager → Manager
  | 0, m => m
  | fuel + 1, m =>
    match m.queue with
    | [] => m
    | c :: rest => runLoop fuel (runContinuation { m with queue := rest } c)

/-- The invariant tying the two tables: an endpoint with a state entry has a
non-null timer entry. -/
def TablesAgree (m : Manager) : Prop :=
  ∀ ep es, tableFind m.stateTable ep = some es →
    ∃ timer, tableFind m.stateTimers ep = some (some timer)

/-- The invariant of the two tables together: they agree, and the state table
has no endpoint twice. -/
def TablesInv (m : Manager) : Prop :=
  TablesAgree m ∧ (m.stateTable.map Prod.fst).Nodup

/-- The managers that can arise: from the constructed one by the manager's own
methods, by the event loop running a posted continuation, and by the rest of
the transport (packet handler, socket), which changes the objects, the queue
and the logs but has no access to the two tables. -/
inductive ManagerReachable : Manager → Prop
  | init : ManagerReachable Manager.init
  | createState (m : Manager) (ep : Endpoint) (fresh : EstablishmentState) :
      ManagerReachable m → ManagerReachable (createState m ep fresh).1
  | createStateWith (m : Manager) (ep : Endpoint) (ri : RouterHash)
      (fresh : EstablishmentState) :
      ManagerReachable m → ManagerReachable (createStateWith m ep ri fresh)
  | delState (m : Manager) (ep : Endpoint) :
      ManagerReachable m → ManagerReachable (delState m ep)
  | timeoutCallback (m : Manager) (e : Bool) (es : Nat) :
      ManagerReachable m → ManagerReachable (timeoutCallback m e es)
  | run (m : Manager) (c : Continuation) (rest : List Continuation) :
      ManagerReachable m → m.queue = c :: rest →
      ManagerReachable (runContinuation { m with queue := rest } c)
  | external (m m' : Manager) :
      ManagerReachable m → m'.stateTable = m.stateTable →
      m'.stateTimers = m.stateTimers → ManagerReachable m'

/-- An object as a constructor may leave it: outbound, no phase yet, and a
SessionCreated signature that will not verify. -/
def outboundBadCreation : EstablishmentState :=
  { theirEndpoint := { ip := 0, port := 0 }, theirIdentity := 0,
    direction := Direction.OUTBOUND, state := Phase.UNKNOWN,
    verifyCreationSignature := false, verifyConfirmationSignature := false }

/-- An inbound object whose SessionConfirmed signature will not verify. -/
def inboundBadConfirmation : EstablishmentState :=
  { theirEndpoint := { ip := 0, port := 0 }, theirIdentity := 0,
    direction := Direction.INBOUND, state := Phase.UNKNOWN,
    verifyCreationSignature := false, verifyConfirmationSignature := false }

/-- An inbound object whose SessionConfirmed signature verifies. -/
def inboundGood : EstablishmentState :=
  { theirEndpoint := { ip := 0, port := 0 }, theirIdentity := 42,
    direction := Direction.INBOUND, state := Phase.UNKNOWN,
    verifyCreationSignature := true, verifyConfirmationSignature := true }

/-- The initiator's run on a bad SessionCreated signature: `createState(ep, ri)`
towards 1:4000 with identity hash 77, the loop runs the posted continuation, the
packet handler moves the state to CREATED_RECEIVED and posts it, the loop runs
until the queue is empty. -/
def badCreationRun : Manager :=
  runLoop 10
    (post
      (setState
        (runLoop 10 (createStateWith Manager.init { ip := 1, port := 4000 } 77
          outboundBadCreation))
        0 Phase.CREATED_RECEIVED)
      0)

/-- The responder's run on a bad SessionConfirmed signature: `createState(ep)`
for 1:4000, the packet handler moves the state to CONFIRMED_RECEIVED and posts
it, the loop runs until the queue is empty. -/
def badConfirmationRun : Manager :=
  runLoop 10
    (post
      (setState (createState Manager.init { ip := 1, port := 4000 } inboundBadConfirmation).1
        0 Phase.CONFIRMED_RECEIVED)
      0)

/-- A responder whose state for 1:4000 has reached the given phase, with an
empty queue. -/
def responderAt (p : Phase) : Manager :=
  setState (createState Manager.init { ip := 1, port := 4000 } inboundGood).1 0 p

/-- The bound as the claim words it: no two entries of the state table share
an IP address. -/
def OnePerIP (m : Manager) : Prop :=
  ∀ e1 e2, e1 ∈ m.stateTable.map Prod.fst → e2 ∈ m.stateTable.map Prod.fst →
    e1.ip = e2.ip → e1 = e2

/-- The initiator's timer expiring before the loop has run the continuation
that `sendRequest` posted: `createState(ep, ri)` towards 1:4000 with identity
hash 77, then `timeoutCallback` without error, then the loop until the queue is
empty. -/
def expiryBeforeFirstRun : Manager :=
  runLoop 10
    (timeoutCallback
      (createStateWith Manager.init { ip := 1, port := 4000 } 77 outboundBadCreation)
      false 0)

/-- The responder's timer expiring while its state, in phase
CONFIRMED_RECEIVED, has been posted and not yet run: `timeoutCallback` without
error, then the loop until the queue is empty. -/
def expiryWhilePosted : Manager :=
  runLoop 10 (timeoutCallback (post (responderAt Phase.CONFIRMED_RECEIVED) 0) false 0)

end SSU
end i2pcpp

namespace i2pcpp
namespace SSU

/-! ## Lemmas on the fragment map -/

theorem mapFind_eq_none_iff (m : FragMap) (k : Nat) :
    mapFind m k = none ↔ k ∉ m.map Prod.fst := by
  induction m with
  | nil => simp [mapFind]
  | cons p rest ih =>
    obtain ⟨k', v⟩ := p
    by_cases h : k' = k
    · simp [mapFind, h]
    · have h' : ¬ k = k' := fun e => h e.symm
      simp [mapFind, h, h', ih]

theorem mapFind_some_mem (m : FragMap) (k : Nat) (v : ByteArray)
    (h : mapFind m k = some v) : (k, v) ∈ m := by
  induction m with
  | nil => simp [mapFind] at h
  | cons p rest ih =>
    obtain ⟨k', v'⟩ := p
    by_cases hk : k' = k
    · simp [mapFind, hk] at h
      simp [hk, h]
    · simp [mapFind, hk] at h
      exact List.mem_cons_of_mem _ (ih h)

theorem mapCount_eq_zero_iff (m : FragMap) (k : Nat) :
    mapCount m k = 0 ↔ k ∉ m.map Prod.fst := by
  rw [← mapFind_eq_none_iff]
  unfold mapCount
  cases mapFind m k <;> simp

theorem mapCount_pos_iff (m : FragMap) (k : Nat) :
    0 < mapCount m k ↔ k ∈ m.map Prod.fst := by
  have h := mapCount_eq_zero_iff m k
  constructor
  · intro hp
    by_contra hn
    have := h.2 hn
    omega
  · intro hm
    by_contra hn
    exact (h.1 (by omega)) hm

theorem mapFind_mapAssign_self (m : FragMap) (k : Nat) (v : ByteArray) :
    mapFind (mapAssign m k v) k = some v := by
  induction m with
  | nil => simp [mapAssign, mapFind]
  | cons p rest ih =>
    obtain ⟨k', v'⟩ := p
    unfold mapAssign
    split
    · simp [mapFind]
    · split
      · simp [mapFind]
      · rename_i h1 h2
        have h3 : ¬ k' = k := fun e => h2 e.symm
        simp [mapFind, h3, ih]

theorem mapFind_mapAssign_ne (m : FragMap) (k k' : Nat) (v : ByteArray) (h : k' ≠ k) :
    mapFind (mapAssign m k v) k' = mapFind m k' := by
  induction m with
  | nil =>
    have h' : ¬ k = k' := fun e => h e.symm
    simp [mapAssign, mapFind, h']
  | cons p rest ih =>
    obtain ⟨k0, v0⟩ := p
    have h' : ¬ k = k' := fun e => h e.symm
    unfold mapAssign
    split
    · simp [mapFind, h']
    · split
      · rename_i h1 h2
        subst h2
        simp [mapFind, h']
      · by_cases h4 : k0 = k'
        · simp [mapFind, h4]
        · simp [mapFind, h4, ih]

theorem mapAssign_perm (m : FragMap) (k : Nat) (v : ByteArray)
    (h : k ∉ m.map Prod.fst) : (mapAssign m k v).Perm ((k, v) :: m) := by
  induction m with
  | nil => simp [mapAssign]
  | cons p rest ih =>
    obtain ⟨k', v'⟩ := p
    simp only [List.map_cons, List.mem_cons, not_or] at h
    unfold mapAssign
    split
    · exact List.Perm.refl _
    · split
      · exact absurd ‹k = k'› h.1
      · exact ((ih h.2).cons (k', v')).trans (List.Perm.swap _ _ _)

theorem mapAssign_sorted (m : FragMap) (k : Nat) (v : ByteArray)
    (hs : (m.map Prod.fst).Pairwise (· < ·)) (h : k ∉ m.map Prod.fst) :
    ((mapAssign m k v).map Prod.fst).Pairwise (· < ·) := by
  induction m with
  | nil => simp [mapAssign]
  | cons p rest ih =>
    obtain ⟨k', v'⟩ := p
    simp only [List.map_cons, List.mem_cons, not_or] at h
    simp only [List.map_cons, List.pairwise_cons] at hs
    unfold mapAssign
    split
    · rename_i hlt
      simp only [List.map_cons, List.pairwise_cons, List.mem_cons]
      refine ⟨?_, hs.1, hs.2⟩
      intro a ha
      rcases ha with rfl | ha
      · exact hlt
      · exact lt_trans hlt (hs.1 a ha)
    · split
      · exact absurd ‹k = k'› h.1
      · rename_i h1 h2
        simp only [List.map_cons, List.pairwise_cons]
        refine ⟨?_, ih hs.2 h.2⟩
        intro a ha
        have hp := ((mapAssign_perm rest k v h.2).map Prod.fst).mem_iff.1 ha
        simp only [List.map_cons, List.mem_cons] at hp
        rcases hp with rfl | hp
        · omega
        · exact hs.1 a hp

theorem mapAssign_total (m : FragMap) (k : Nat) (v : ByteArray)
    (h : k ∉ m.map Prod.fst) :
    storedBytes (mapAssign m k v) = storedBytes m + v.length := by
  unfold storedBytes
  have hp := ((mapAssign_perm m k v h).map fun p => p.2.length).sum_eq
  rw [hp]
  simp [Nat.add_comm]

/-! ## Lemmas on `addFragment` -/

theorem addFragment_dropped (s : InboundMessageState) (f : Nat) (d : ByteArray) (l : Bool)
    (h : (s.gotLast && decide (f > s.lastFragment)) = true ∨ 0 < mapCount s.fragments f) :
    addFragment s f d l = s := by
  unfold addFragment
  rcases h with h | h
  · simp [h]
  · split
    · rfl
    · simp [h]

theorem addFragment_stored (s : InboundMessageState) (f : Nat) (d : ByteArray) (l : Bool)
    (h1 : (s.gotLast && decide (f > s.lastFragment)) = false)
    (h2 : mapCount s.fragments f = 0) :
    (addFragment s f d l).fragments = mapAssign s.fragments f d ∧
    (addFragment s f d l).gotLast = (l || s.gotLast) ∧
    (addFragment s f d l).lastFragment = (if l = true then f else s.lastFragment) ∧
    (addFragment s f d l).byteTotal = s.byteTotal + d.length ∧
    (addFragment s f d l).fragmentAckStates =
      (if s.fragmentAckStates.length < f then bitsResize s.fragmentAckStates f
       else s.fragmentAckStates) := by
  unfold addFragment
  simp only [h1, h2]
  cases l <;> by_cases h3 : s.fragmentAckStates.length < f <;> simp [h3]

theorem addFragment_cases (s : InboundMessageState) (f : Nat) (d : ByteArray) (l : Bool) :
    addFragment s f d l = s ∨
    ((s.gotLast && decide (f > s.lastFragment)) = false ∧ mapCount s.fragments f = 0) := by
  by_cases h1 : (s.gotLast && decide (f > s.lastFragment)) = true
  · exact Or.inl (addFragment_dropped s f d l (Or.inl h1))
  · by_cases h2 : 0 < mapCount s.fragments f
    · exact Or.inl (addFragment_dropped s f d l (Or.inr h2))
    · right
      constructor
      · simpa using h1
      · omega

theorem wellFormed_addFragment (s : InboundMessageState) (f : Nat) (d : ByteArray) (l : Bool)
    (h : WellFormed s) : WellFormed (addFragment s f d l) := by
  rcases addFragment_cases s f d l with he | ⟨h1, h2⟩
  · rw [he]; exact h
  · obtain ⟨hf, hg, hl, hb, _⟩ := addFragment_stored s f d l h1 h2
    obtain ⟨hs, ht, hlast⟩ := h
    have hk : f ∉ s.fragments.map Prod.fst := (mapCount_eq_zero_iff _ _).1 h2
    have hmem : ∀ k, k ∈ (mapAssign s.fragments f d).map Prod.fst ↔
        k = f ∨ k ∈ s.fragments.map Prod.fst := by
      intro k
      rw [((mapAssign_perm s.fragments f d hk).map Prod.fst).mem_iff]
      simp
    refine ⟨?_, ?_, ?_⟩
    · rw [hf]; exact mapAssign_sorted _ _ _ hs hk
    · rw [hf, hb, mapAssign_total _ _ _ hk, ht]
    · rw [hf, hg, hl]
      intro hgl
      cases l with
      | true => exact (hmem f).2 (Or.inl rfl)
      | false =>
        simp only [Bool.false_or] at hgl
        simp only [Bool.false_eq_true, if_false]
        exact (hmem _).2 (Or.inr (hlast hgl))

theorem wellFormed_empty : WellFormed InboundMessageState.empty := by
  simp [WellFormed, InboundMessageState.empty, storedBytes]

theorem wellFormed_of_reachable (s : InboundMessageState) (h : Reachable s) :
    WellFormed s := by
  induction h with
  | empty => exact wellFormed_empty
  | add s f d l _ _ ih => exact wellFormed_addFragment s f d l ih

/-! ## Lemmas on `assemble` -/

theorem assembleLoop_spec (m : FragMap) (pre tail : ByteArray)
    (h : tail.length = storedBytes m) :
    assembleLoop m (pre ++ tail) pre.length = some (pre ++ (m.map Prod.snd).flatten) := by
  induction m generalizing pre tail with
  | nil =>
    simp only [storedBytes, List.map_nil, List.sum_nil] at h
    have : tail = [] := List.eq_nil_of_length_eq_zero h
    simp [assembleLoop, this]
  | cons p rest ih =>
    obtain ⟨k, f⟩ := p
    simp only [storedBytes, List.map_cons, List.sum_cons] at h
    have hle : pre.length + f.length ≤ (pre ++ tail).length := by
      rw [List.length_append]; omega
    have hcopy : copyAt (pre ++ tail) pre.length f
        = some ((pre ++ f) ++ tail.drop f.length) := by
      unfold copyAt
      rw [if_pos hle]
      congr 1
      rw [List.take_left, List.drop_append]
    unfold assembleLoop
    rw [hcopy]
    have hlen : (tail.drop f.length).length = storedBytes rest := by
      rw [List.length_drop, h]; unfold storedBytes; omega
    have := ih (pre ++ f) (tail.drop f.length) hlen
    rw [List.length_append] at this
    simpa [List.append_assoc] using this

theorem assemble_of_total (s : InboundMessageState)
    (h : s.byteTotal = storedBytes s.fragments) :
    assemble s = some (s.fragments.map Prod.snd).flatten := by
  have := assembleLoop_spec s.fragments [] (List.replicate s.byteTotal 0) (by simp [h])
  simpa [assemble] using this

theorem length_join_values (m : FragMap) :
    ((m.map Prod.snd).flatten).length = storedBytes m := by
  induction m with
  | nil => simp [storedBytes]
  | cons p rest ih =>
    simp only [storedBytes] at ih
    simp [storedBytes, ih]

/-! ## Delivery of the pieces of a split byte string -/

theorem map_getD_range (pieces : List ByteArray) :
    (List.range pieces.length).map (fun i => pieces.getD i []) = pieces := by
  apply List.ext_getElem
  · simp
  · intro i h1 h2
    simp [List.getD_eq_getElem?_getD, List.getElem?_eq_getElem h2]

theorem deliver_step (pieces : List ByteArray) (s : InboundMessageState) (done : List Nat)
    (i : Nat) (hi : i < pieces.length) (hnew : i ∉ done)
    (h : DeliverInv pieces s done) :
    DeliverInv pieces
      (addFragment s i (pieces.getD i []) (decide (i + 1 = pieces.length))) (i :: done) := by
  obtain ⟨hw, hb, hc, hd, he⟩ := h
  have hk : i ∉ s.fragments.map Prod.fst := by
    intro hm
    obtain ⟨p, hp, hpi⟩ := List.mem_map.1 hm
    exact hnew (hpi ▸ (hb p hp).1)
  have h2 : mapCount s.fragments i = 0 := (mapCount_eq_zero_iff _ _).2 hk
  have h1 : (s.gotLast && decide (i > s.lastFragment)) = false := by
    cases hg : s.gotLast with
    | false => simp
    | true =>
      have := hd hg
      simp only [Bool.true_and, decide_eq_false_iff_not]
      omega
  obtain ⟨hf, hgl, hl, _, _⟩ :=
    addFragment_stored s i (pieces.getD i []) (decide (i + 1 = pieces.length)) h1 h2
  have hperm := mapAssign_perm s.fragments i (pieces.getD i []) hk
  refine ⟨wellFormed_addFragment _ _ _ _ hw, ?_, ?_, ?_, ?_⟩
  · intro p hp
    rw [hf, hperm.mem_iff] at hp
    rcases List.mem_cons.1 hp with rfl | hp
    · exact ⟨List.mem_cons_self _ _, rfl⟩
    · exact ⟨List.mem_cons_of_mem _ (hb p hp).1, (hb p hp).2⟩
  · intro j hj
    rw [hf, (hperm.map Prod.fst).mem_iff]
    rcases List.mem_cons.1 hj with rfl | hj
    · simp
    · exact List.mem_cons_of_mem _ (hc j hj)
  · rw [hgl, hl]
    intro hg
    by_cases hlast : i + 1 = pieces.length
    · simp [hlast]
    · simp only [hlast, decide_False, Bool.false_or] at hg
      simp only [hlast, decide_False, Bool.false_eq_true, if_false]
      exact hd hg
  · rw [hgl]
    intro hm
    rcases List.mem_cons.1 hm with hm | hm
    · have : i + 1 = pieces.length := by omega
      simp [this]
    · simp [he hm]

theorem deliver_foldl (pieces : List ByteArray) (order : List Nat) :
    ∀ (s : InboundMessageState) (done : List Nat), DeliverInv pieces s done →
      order.Nodup → (∀ i ∈ order, i < pieces.length ∧ i ∉ done) →
      DeliverInv pieces
        (order.foldl
          (fun s i => addFragment s i (pieces.getD i []) (decide (i + 1 = pieces.length))) s)
        (order.reverse ++ done) := by
  induction order with
  | nil => intro s done h _ _; simpa using h
  | cons i rest ih =>
    intro s done h hnd hall
    have hi := hall i (List.mem_cons_self _ _)
    have hstep := deliver_step pieces s done i hi.1 hi.2 h
    have hnd' := List.nodup_cons.1 hnd
    have := ih _ (i :: done) hstep hnd'.2 (by
      intro j hj
      refine ⟨(hall j (List.mem_cons_of_mem _ hj)).1, ?_⟩
      intro hm
      rcases List.mem_cons.1 hm with rfl | hm
      · exact hnd'.1 hj
      · exact (hall j (List.mem_cons_of_mem _ hj)).2 hm)
    simpa [List.foldl_cons] using this

theorem deliverInv_empty (pieces : List ByteArray) :
    DeliverInv pieces InboundMessageState.empty [] := by
  refine ⟨wellFormed_empty, ?_, ?_, ?_, ?_⟩ <;> simp [InboundMessageState.empty]

theorem deliver_complete (pieces : List ByteArray) (order : List Nat)
    (hperm : order.Perm (List.range pieces.length)) :
    DeliverInv pieces (deliver pieces order) order.reverse ∧
    (deliver pieces order).fragments.map Prod.fst = List.range pieces.length := by
  have hnd : order.Nodup := hperm.nodup_iff.2 (List.nodup_range _)
  have hinv := deliver_foldl pieces order _ [] (deliverInv_empty pieces) hnd (by
    intro i hi
    exact ⟨List.mem_range.1 (hperm.mem_iff.1 hi), by simp⟩)
  rw [List.append_nil] at hinv
  refine ⟨hinv, ?_⟩
  obtain ⟨hw, hb, hc, _, _⟩ := hinv
  have hsorted := hw.1
  have hkeys : ((deliver pieces order).fragments.map Prod.fst).Perm
      (List.range pieces.length) := by
    refine (List.perm_ext_iff_of_nodup ?_ (List.nodup_range _)).2 ?_
    · exact hsorted.imp (fun h => Nat.ne_of_lt h)
    · intro k
      constructor
      · intro hk
        obtain ⟨p, hp, hpk⟩ := List.mem_map.1 hk
        have := (hb p hp).1
        rw [hpk] at this
        exact hperm.mem_iff.1 (List.mem_reverse.1 this)
      · intro hk
        exact hc k (List.mem_reverse.2 (hperm.mem_iff.2 hk))
  exact List.eq_of_perm_of_sorted hkeys
    (hsorted.imp (fun h => Nat.le_of_lt h))
    ((List.pairwise_lt_range _).imp (fun h => Nat.le_of_lt h))

/-! ## Stored data is never overwritten -/

theorem addFragment_keeps (s : InboundMessageState) (f k : Nat) (d v : ByteArray) (l : Bool)
    (h : mapFind s.fragments k = some v) :
    mapFind (addFragment s f d l).fragments k = some v := by
  rcases addFragment_cases s f d l with he | ⟨h1, h2⟩
  · rw [he]; exact h
  · rw [(addFragment_stored s f d l h1 h2).1]
    have hk : k ≠ f := by
      intro e
      subst e
      have := (mapCount_eq_zero_iff _ _).1 h2
      exact this (List.mem_map.2 ⟨(k, v), mapFind_some_mem _ _ _ h, rfl⟩)
    rw [mapFind_mapAssign_ne _ _ _ _ hk]
    exact h

theorem markFragmentAckd_fragments (s s' : InboundMessageState) (f : Nat)
    (h : markFragmentAckd s f = some s') : s'.fragments = s.fragments := by
  unfold markFragmentAckd at h
  split at h
  · simp only [Option.some.injEq] at h
    rw [← h]
  · simp at h

theorem applyCalls_keeps (s : InboundMessageState) (calls : List Call)
    (s' : InboundMessageState) (k : Nat) (v : ByteArray)
    (h : mapFind s.fragments k = some v) (hrun : applyCalls s calls = some s') :
    mapFind s'.fragments k = some v := by
  induction calls generalizing s with
  | nil =>
    simp only [applyCalls, Option.some.injEq] at hrun
    rw [← hrun]; exact h
  | cons c cs ih =>
    unfold applyCalls at hrun
    cases c with
    | add f d l =>
      simp only [applyCall] at hrun
      exact ih _ (addFragment_keeps s f k d v l h) hrun
    | ack f =>
      simp only [applyCall] at hrun
      cases hm : markFragmentAckd s f with
      | none => simp [hm] at hrun
      | some s1 =>
        simp only [hm] at hrun
        refine ih s1 ?_ hrun
        rw [markFragmentAckd_fragments s s1 f hm]
        exact h

/-! ## Claims on `InboundMessageState` -/

/-- C1. Reassembly round trip in any delivery order: a byte string split into
`n ≥ 1` pieces (with `n` within the range of an `unsigned char` fragment
number), handed to `addFragment` once per piece in any permuted order with the
last flag on piece `n - 1`, leaves a state on which `allFragmentsReceived` is
true and `assemble` returns the concatenation of the pieces in index order. -/
theorem reassembly_round_trip (pieces : List ByteArray) (order : List Nat)
    (hn : 1 ≤ pieces.length) (hmax : pieces.length ≤ 256)
    (hperm : order.Perm (List.range pieces.length)) :
    allFragmentsReceived (deliver pieces order) = true ∧
    assemble (deliver pieces order) = some pieces.flatten := by
  obtain ⟨⟨hw, hb, hc, hd, he⟩, hkeys⟩ := deliver_complete pieces order hperm
  have hlast : pieces.length - 1 ∈ order.reverse :=
    List.mem_reverse.2 (hperm.mem_iff.2 (List.mem_range.2 (by omega)))
  have hg := he hlast
  constructor
  · unfold allFragmentsReceived
    simp only [hg, Bool.not_true, Bool.false_eq_true, if_false, List.all_eq_true,
      List.mem_range, Bool.not_eq_true', decide_eq_false_iff_not, Nat.not_lt]
    intro f hf
    have hl := hd hg
    have : f ∈ (deliver pieces order).fragments.map Prod.fst := by
      rw [hkeys]; exact List.mem_range.2 (by omega)
    exact (mapCount_pos_iff _ _).2 this
  · rw [assemble_of_total _ hw.2.1]
    congr 1
    have hv : (deliver pieces order).fragments.map Prod.snd
        = ((deliver pieces order).fragments.map Prod.fst).map
            (fun i => pieces.getD i []) := by
      rw [List.map_map]
      apply List.map_congr_left
      intro p hp
      exact (hb p hp).2
    rw [hv, hkeys, map_getD_range]

/-- Witness of C1: three fragments delivered in order [2, 0, 1]. -/
theorem reassembly_round_trip_witness :
    allFragmentsReceived (deliver [[10, 11], [20], [30, 31, 32]] [2, 0, 1]) = true ∧
    assemble (deliver [[10, 11], [20], [30, 31, 32]] [2, 0, 1])
      = some [10, 11, 20, 30, 31, 32] :=
  reassembly_round_trip [[10, 11], [20], [30, 31, 32]] [2, 0, 1]
    (by decide) (by decide) (by decide)

/-- C2. First insertion wins: once a call of `addFragment` has stored data `d`
under fragment number `f` (it passed both guards), `fragments[f]` is `d`, and it
is still `d` after any further sequence of `addFragment` and `markFragmentAckd`
calls, whatever their numbers, data and last flags. -/
theorem first_insertion_wins (s : InboundMessageState) (f : Nat) (d : ByteArray) (l : Bool)
    (calls : List Call) (s' : InboundMessageState)
    (h1 : (s.gotLast && decide (f > s.lastFragment)) = false)
    (h2 : mapCount s.fragments f = 0)
    (hrun : applyCalls (addFragment s f d l) calls = some s') :
    mapFind (addFragment s f d l).fragments f = some d ∧
    mapFind s'.fragments f = some d := by
  have h0 : mapFind (addFragment s f d l).fragments f = some d := by
    rw [(addFragment_stored s f d l h1 h2).1]
    exact mapFind_mapAssign_self _ _ _
  refine ⟨h0, ?_⟩
  exact applyCalls_keeps _ _ _ _ _ h0 hrun

/-- Witness of C2: fragment 1 is stored, then offered again with
other data and the last flag, fragment 0 arrives and bit 0 is acknowledged. -/
theorem first_insertion_wins_witness :
    mapFind (addFragment InboundMessageState.empty 1 [7] false).fragments 1 = some [7] ∧
    mapFind
      (addFragment (addFragment (addFragment InboundMessageState.empty 1 [7] false)
        1 [8, 9] true) 0 [5] false).fragments 1 = some [7] :=
  first_insertion_wins InboundMessageState.empty 1 [7] false
    [Call.add 1 [8, 9] true, Call.add 0 [5] false, Call.ack 0]
    { fragments := [(0, [5]), (1, [7])], gotLast := false, lastFragment := 0,
      fragmentAckStates := [true], byteTotal := 2 }
    (by decide) (by decide) (by decide)

/-- C3. Completeness test: on every state reachable from the empty one by
`addFragment` calls, `allFragmentsReceived` is true exactly when `gotLast` is
set and every index `0 ≤ i ≤ lastFragment`, `lastFragment` included, is present
in the fragment map. -/
theorem allFragmentsReceived_iff (s : InboundMessageState) (h : Reachable s) :
    allFragmentsReceived s = true ↔
      (s.gotLast = true ∧ ∀ i, i ≤ s.lastFragment → 0 < mapCount s.fragments i) := by
  have hw := wellFormed_of_reachable s h
  unfold allFragmentsReceived
  cases hg : s.gotLast with
  | false => simp
  | true =>
    simp only [Bool.not_true, Bool.false_eq_true, if_false, List.all_eq_true,
      List.mem_range, Bool.not_eq_true', decide_eq_false_iff_not, Nat.not_lt, true_and]
    constructor
    · intro hall i hi
      rcases Nat.lt_or_ge i s.lastFragment with hlt | hge
      · exact hall i hlt
      · have : i = s.lastFragment := by omega
        rw [this]
        exact (mapCount_pos_iff _ _).2 (hw.2.2 hg)
    · intro hall i hi
      exact hall i (by omega)

/-- Witness of C3: fragments 1 (last) and 0 have been received, so the test
holds and index 1, the last one, is present. -/
theorem allFragmentsReceived_iff_witness :
    (addFragment (addFragment InboundMessageState.empty 1 [2] true) 0 [1] false).gotLast
        = true ∧
      0 < mapCount (addFragment (addFragment InboundMessageState.empty 1 [2] true)
        0 [1] false).fragments 1 :=
  ⟨((allFragmentsReceived_iff _
      (Reachable.add _ 0 [1] false
        (Reachable.add _ 1 [2] true Reachable.empty (by decide)) (by decide))).1
      (by decide)).1,
   ((allFragmentsReceived_iff _
      (Reachable.add _ 0 [1] false
        (Reachable.add _ 1 [2] true Reachable.empty (by decide)) (by decide))).1
      (by decide)).2 1 (by decide)⟩

/-- C4, evaluated where it fails: fragment 1 arrives unflagged, then fragment 0
arrives flagged last. Both are stored, so `gotLast` is set with `lastFragment`
0 while number 1 is in the map; `allFragmentsReceived` holds and `assemble`
returns the octets of both. -/
theorem fragment_above_last_is_kept :
    Reachable (addFragment (addFragment InboundMessageState.empty 1 [9] false) 0 [7] true) ∧
    (addFragment (addFragment InboundMessageState.empty 1 [9] false) 0 [7] true).gotLast
      = true ∧
    (addFragment (addFragment InboundMessageState.empty 1 [9] false) 0 [7] true).lastFragment
      = 0 ∧
    mapFind (addFragment (addFragment InboundMessageState.empty 1 [9] false)
      0 [7] true).fragments 1 = some [9] ∧
    allFragmentsReceived
      (addFragment (addFragment InboundMessageState.empty 1 [9] false) 0 [7] true) = true ∧
    assemble (addFragment (addFragment InboundMessageState.empty 1 [9] false) 0 [7] true)
      = some [7, 9] :=
  ⟨Reachable.add _ 0 [7] true (Reachable.add _ 1 [9] false Reachable.empty (by decide))
      (by decide),
    by decide, by decide, by decide, by decide, by decide⟩

/-- C5. Assembly is the ascending concatenation and `byteTotal` is exact: on
every state reachable from the empty one by `addFragment` calls, `byteTotal` is
the sum of the lengths of the stored fragments, the map holds them under
strictly ascending numbers, `assemble` returns (every copy staying inside the
destination buffer) the concatenation of the stored fragments in that order, and
the length of the result is `byteTotal`. -/
theorem assemble_ascending_concat (s : InboundMessageState) (h : Reachable s) :
    s.byteTotal = storedBytes s.fragments ∧
    (s.fragments.map Prod.fst).Pairwise (· < ·) ∧
    assemble s = some (s.fragments.map Prod.snd).flatten ∧
    ((s.fragments.map Prod.snd).flatten).length = s.byteTotal := by
  have hw := wellFormed_of_reachable s h
  refine ⟨hw.2.1, hw.1, assemble_of_total s hw.2.1, ?_⟩
  rw [length_join_values, hw.2.1]

/-- Witness of C5: delivery [0, 0, 1, 2(last)]; the second copy of fragment 0 is
dropped, `byteTotal` is 4 and the assembled octets use the first copy. -/
theorem assemble_ascending_concat_witness :
    (addFragment (addFragment (addFragment (addFragment InboundMessageState.empty
      0 [1, 2] false) 0 [8, 8, 8] false) 1 [3] false) 2 [4] true).byteTotal = 4 ∧
    assemble (addFragment (addFragment (addFragment (addFragment InboundMessageState.empty
      0 [1, 2] false) 0 [8, 8, 8] false) 1 [3] false) 2 [4] true) = some [1, 2, 3, 4] := by
  have h := assemble_ascending_concat
    (addFragment (addFragment (addFragment (addFragment InboundMessageState.empty
      0 [1, 2] false) 0 [8, 8, 8] false) 1 [3] false) 2 [4] true)
    (Reachable.add _ 2 [4] true (Reachable.add _ 1 [3] false
      (Reachable.add _ 0 [8, 8, 8] false
        (Reachable.add _ 0 [1, 2] false Reachable.empty (by decide))
        (by decide)) (by decide)) (by decide))
  exact ⟨h.1.trans (by decide), h.2.2.1.trans (by decide)⟩

/-- C10, evaluated where it fails: after `addFragment` has stored fragment 0 in
the empty state the ACK bitmap has length 0, so `markFragmentAckd 0` is an
out-of-range access; after fragments 0, 1, 2 in order the bitmap has length 2,
not above the highest stored number 2. -/
theorem ack_bitmap_not_above_stored :
    mapFind (addFragment InboundMessageState.empty 0 [1] true).fragments 0 = some [1] ∧
    (addFragment InboundMessageState.empty 0 [1] true).fragmentAckStates.length = 0 ∧
    markFragmentAckd (addFragment InboundMessageState.empty 0 [1] true) 0 = none ∧
    (addFragment (addFragment (addFragment InboundMessageState.empty 0 [1] false)
      1 [2] false) 2 [3] true).fragmentAckStates.length = 2 ∧
    markFragmentAckd (addFragment (addFragment (addFragment InboundMessageState.empty
      0 [1] false) 1 [2] false) 2 [3] true) 2 = none := by
  decide

end SSU
end i2pcpp

namespace i2pcpp
namespace SSU

/-! ## Lemmas on the manager's tables -/

theorem tableFind_tableErase {β : Type} (t : List (Endpoint × β)) (k ep : Endpoint) :
    tableFind (tableErase t k) ep = if ep = k then none else tableFind t ep := by
  induction t with
  | nil => simp [tableErase, tableFind]
  | cons p rest ih =>
    obtain ⟨k0, v⟩ := p
    unfold tableErase at ih ⊢
    by_cases h0 : k0 = k
    · subst h0
      by_cases h1 : ep = k0
      · subst h1
        simpa [List.filter_cons, tableFind] using ih
      · have h2 : ¬ k0 = ep := fun e => h1 e.symm
        simpa [List.filter_cons, tableFind, h1, h2] using ih
    · by_cases h1 : k0 = ep
      · subst h1
        simp [List.filter_cons, tableFind, h0]
      · simpa [List.filter_cons, tableFind, h0, h1] using ih

theorem tableFind_tableSet {β : Type} (t : List (Endpoint × β)) (k ep : Endpoint) (v : β) :
    tableFind (tableSet t k v) ep = if ep = k then some v else tableFind t ep := by
  unfold tableSet
  by_cases h : ep = k
  · subst h
    simp [tableFind]
  · have h' : ¬ k = ep := fun e => h e.symm
    simp [tableFind, h, h', tableFind_tableErase]

theorem tableFind_append_absent {β : Type} (t : List (Endpoint × β)) (k ep : Endpoint)
    (v : β) (h : tableFind t k = none) :
    tableFind (t ++ [(k, v)]) ep = if ep = k then some v else tableFind t ep := by
  induction t with
  | nil =>
    by_cases h1 : k = ep
    · simp [tableFind, h1]
    · have h2 : ¬ ep = k := fun e => h1 e.symm
      simp [tableFind, h1, h2]
  | cons p rest ih =>
    obtain ⟨k0, v0⟩ := p
    by_cases h0 : k0 = k
    · simp [tableFind, h0] at h
    · simp only [tableFind, h0, if_false] at h
      by_cases h1 : k0 = ep
      · subst h1
        have h2 : ¬ k0 = k := h0
        simp [tableFind, h2]
      · simp only [List.cons_append, tableFind, h1, if_false]
        exact ih h

theorem tableFind_none_iff {β : Type} (t : List (Endpoint × β)) (ep : Endpoint) :
    tableFind t ep = none ↔ ep ∉ t.map Prod.fst := by
  induction t with
  | nil => simp [tableFind]
  | cons p rest ih =>
    obtain ⟨k0, v0⟩ := p
    by_cases h : k0 = ep
    · simp [tableFind, h]
    · have h' : ¬ ep = k0 := fun e => h e.symm
      simp [tableFind, h, h', ih]

theorem tableSet_keys_nodup {β : Type} (t : List (Endpoint × β)) (k : Endpoint) (v : β)
    (h : (t.map Prod.fst).Nodup) : ((tableSet t k v).map Prod.fst).Nodup := by
  unfold tableSet tableErase
  rw [List.map_cons, List.nodup_cons]
  constructor
  · intro hm
    obtain ⟨p, hp, hk⟩ := List.mem_map.1 hm
    have := (List.mem_filter.1 hp).2
    simp at this
    exact this hk
  · exact List.Nodup.sublist ((List.filter_sublist _).map Prod.fst) h

theorem tableErase_keys_nodup {β : Type} (t : List (Endpoint × β)) (k : Endpoint)
    (h : (t.map Prod.fst).Nodup) : ((tableErase t k).map Prod.fst).Nodup :=
  List.Nodup.sublist ((List.filter_sublist _).map Prod.fst) h

theorem runLoop_of_queue_nil (fuel : Nat) (m : Manager) (h : m.queue = []) :
    runLoop fuel m = m := by
  cases fuel with
  | zero => rfl
  | succ n => simp [runLoop, h]

/-! ## The invariant of the manager's tables -/

theorem delState_stateTable (m : Manager) (ep : Endpoint) :
    (delState m ep).stateTable = tableErase m.stateTable ep := by
  unfold delState
  split <;> rfl

theorem delState_timers_other (m : Manager) (ep ep' : Endpoint) (h : ep' ≠ ep) :
    tableFind (delState m ep).stateTimers ep' = tableFind m.stateTimers ep' := by
  unfold delState
  split
  · simp [tableFind_tableErase, h]
  · rfl
  · rename_i hnone
    simp [tableFind_append_absent _ _ _ _ hnone, h]

theorem delState_timers_armed (m : Manager) (ep : Endpoint) (timer : Timer)
    (h : tableFind m.stateTimers ep = some (some timer)) :
    delState m ep =
      { m with cancelled := m.cancelled ++ [timer.id]
               stateTimers := tableErase m.stateTimers ep
               stateTable := tableErase m.stateTable ep } := by
  unfold delState
  rw [h]

theorem delState_postContinuation (m : Manager) (c : Continuation) (ep : Endpoint) :
    (delState (postContinuation m c) ep).stateTable = (delState m ep).stateTable ∧
    (delState (postContinuation m c) ep).stateTimers = (delState m ep).stateTimers := by
  unfold delState postContinuation
  simp only
  split <;> simp_all

theorem tablesInv_of_eq (m m' : Manager) (h1 : m'.stateTable = m.stateTable)
    (h2 : m'.stateTimers = m.stateTimers) (h : TablesInv m) : TablesInv m' := by
  unfold TablesInv TablesAgree at *
  rw [h1, h2]
  exact h

theorem tablesInv_delState (m : Manager) (ep : Endpoint) (h : TablesInv m) :
    TablesInv (delState m ep) := by
  obtain ⟨ha, hn⟩ := h
  constructor
  · intro ep' es hfind
    rw [delState_stateTable, tableFind_tableErase] at hfind
    by_cases he : ep' = ep
    · simp [he] at hfind
    · simp only [he, if_false] at hfind
      rw [delState_timers_other m ep ep' he]
      exact ha ep' es hfind
  · rw [delState_stateTable]
    exact tableErase_keys_nodup _ _ hn

theorem tablesInv_register_arm (m : Manager) (ep : Endpoint) (es : Nat) (timer : Timer)
    (m' : Manager) (h1 : m'.stateTable = tableSet m.stateTable ep es)
    (h2 : m'.stateTimers = tableSet m.stateTimers ep (some timer)) (h : TablesInv m) :
    TablesInv m' := by
  obtain ⟨ha, hn⟩ := h
  constructor
  · intro ep' es' hfind
    rw [h1, tableFind_tableSet] at hfind
    rw [h2, tableFind_tableSet]
    by_cases he : ep' = ep
    · exact ⟨timer, by simp [he]⟩
    · simp only [he, if_false] at hfind ⊢
      exact ha ep' es' hfind
  · rw [h1]
    exact tableSet_keys_nodup _ _ _ hn

theorem tablesInv_createState (m : Manager) (ep : Endpoint) (fresh : EstablishmentState)
    (h : TablesInv m) : TablesInv (createState m ep fresh).1 :=
  tablesInv_register_arm m ep m.nextObject _ _ rfl rfl h

theorem tablesInv_createStateWith (m : Manager) (ep : Endpoint) (ri : RouterHash)
    (fresh : EstablishmentState) (h : TablesInv m) :
    TablesInv (createStateWith m ep ri fresh) :=
  tablesInv_register_arm m ep m.nextObject _ _ rfl rfl h

theorem stateChanged_tables (m : Manager) (es : Nat) :
    ((stateChanged m es).stateTable = m.stateTable ∧
      (stateChanged m es).stateTimers = m.stateTimers) ∨
    ((stateChanged m es).stateTable = (delState m (m.objects es).theirEndpoint).stateTable ∧
      (stateChanged m es).stateTimers
        = (delState m (m.objects es).theirEndpoint).stateTimers) := by
  unfold stateChanged
  cases hp : (m.objects es).state
  · exact Or.inr (delState_postContinuation _ _ _)
  · exact Or.inl ⟨rfl, rfl⟩
  · exact Or.inl ⟨rfl, rfl⟩
  · exact Or.inl ⟨rfl, rfl⟩
  · left
    simp only [processCreated]
    split <;> exact ⟨rfl, rfl⟩
  · exact Or.inr (delState_postContinuation _ _ _)
  · simp only [processConfirmed]
    split
    · exact Or.inl ⟨rfl, rfl⟩
    · right
      have h1 : ∀ (x : Manager) (p : PeerState) (e : Endpoint),
          (delState (addRemotePeer x p) e).stateTable = (delState x e).stateTable ∧
          (delState (addRemotePeer x p) e).stateTimers = (delState x e).stateTimers := by
        intro x p e
        unfold delState addRemotePeer
        simp only
        split <;> simp_all
      exact h1 _ _ _
  · exact Or.inr (delState_postContinuation _ _ _)

theorem tablesInv_stateChanged (m : Manager) (es : Nat) (h : TablesInv m) :
    TablesInv (stateChanged m es) := by
  rcases stateChanged_tables m es with ⟨h1, h2⟩ | ⟨h1, h2⟩
  · exact tablesInv_of_eq m _ h1 h2 h
  · exact tablesInv_of_eq (delState m _) _ h1 h2 (tablesInv_delState m _ h)

theorem tablesInv_runContinuation (m : Manager) (c : Continuation) (h : TablesInv m) :
    TablesInv (runContinuation m c) := by
  cases c with
  | stateChanged es => exact tablesInv_stateChanged m es h
  | establishedSignal rh i => exact tablesInv_of_eq m _ rfl rfl h
  | failureSignal rh => exact tablesInv_of_eq m _ rfl rfl h

theorem tablesInv_of_reachable (m : Manager) (h : ManagerReachable m) : TablesInv m := by
  induction h with
  | init =>
    constructor
    · intro ep es hf
      simp [Manager.init, tableFind] at hf
    · simp [Manager.init]
  | createState m ep fresh _ ih => exact tablesInv_createState m ep fresh ih
  | createStateWith m ep ri fresh _ ih => exact tablesInv_createStateWith m ep ri fresh ih
  | delState m ep _ ih => exact tablesInv_delState m ep ih
  | timeoutCallback m e es _ ih =>
    refine tablesInv_of_eq m _ ?_ ?_ ih <;>
      (unfold timeoutCallback; split <;> rfl)
  | run m c rest _ _ ih =>
    exact tablesInv_runContinuation _ c (tablesInv_of_eq m _ rfl rfl ih)
  | external m m' _ h1 h2 ih => exact tablesInv_of_eq m m' h1 h2 ih

/-! ## Runs of the event loop -/

theorem timeout_run (m : Manager) (es : Nat) (timer : Timer) (n : Nat)
    (hq : m.queue = [])
    (ht : tableFind m.stateTimers (m.objects es).theirEndpoint = some (some timer)) :
    runLoop (n + 2) (timeoutCallback m false es) =
      { m with
        objects := Function.update m.objects es { m.objects es with state := Phase.FAILURE }
        queue := []
        signals := m.signals ++ [Signal.failure (m.objects es).theirIdentity]
        cancelled := m.cancelled ++ [timer.id]
        stateTimers := tableErase m.stateTimers (m.objects es).theirEndpoint
        stateTable := tableErase m.stateTable (m.objects es).theirEndpoint } := by
  simp [timeoutCallback, post, postContinuation, setState, hq, runLoop, runContinuation,
    stateChanged, delState, ht, runLoop_of_queue_nil]

theorem created_ok_run (m : Manager) (es : Nat) (timer : Timer) (n : Nat)
    (hq : m.queue = [])
    (ht : tableFind m.stateTimers (m.objects es).theirEndpoint = some (some timer))
    (hp : (m.objects es).state = Phase.CREATED_RECEIVED)
    (hv : (m.objects es).verifyCreationSignature = true) :
    runLoop (n + 2) (stateChanged m es) =
      { m with
        objects := Function.update m.objects es
          { m.objects es with state := Phase.CONFIRMED_SENT }
        queue := []
        peers := m.peers ++ [{ endpoint := (m.objects es).theirEndpoint,
                               identity := (m.objects es).theirIdentity }]
        sent := m.sent ++ [(PacketKind.sessionConfirmed, (m.objects es).theirEndpoint)]
        signals := m.signals ++ [Signal.established (m.objects es).theirIdentity
          (decide ((m.objects es).direction = Direction.INBOUND))]
        cancelled := m.cancelled ++ [timer.id]
        stateTimers := tableErase m.stateTimers (m.objects es).theirEndpoint
        stateTable := tableErase m.stateTable (m.objects es).theirEndpoint } := by
  simp [stateChanged, hp, processCreated, hv, addRemotePeer, sendPacket, post,
    postContinuation, setState, hq, runLoop, runContinuation, delState, ht,
    runLoop_of_queue_nil]

theorem confirmed_ok_run (m : Manager) (es : Nat) (timer : Timer) (n : Nat)
    (hq : m.queue = [])
    (ht : tableFind m.stateTimers (m.objects es).theirEndpoint = some (some timer))
    (hp : (m.objects es).state = Phase.CONFIRMED_RECEIVED)
    (hv : (m.objects es).verifyConfirmationSignature = true) :
    runLoop (n + 2) (stateChanged m es) =
      { m with
        queue := []
        peers := m.peers ++ [{ endpoint := (m.objects es).theirEndpoint,
                               identity := (m.objects es).theirIdentity }]
        signals := m.signals ++ [Signal.established (m.objects es).theirIdentity
          (decide ((m.objects es).direction = Direction.INBOUND))]
        cancelled := m.cancelled ++ [timer.id]
        stateTimers := tableErase m.stateTimers (m.objects es).theirEndpoint
        stateTable := tableErase m.stateTable (m.objects es).theirEndpoint } := by
  simp [stateChanged, hp, processConfirmed, hv, addRemotePeer, postContinuation, hq,
    runLoop, runContinuation, delState, ht, runLoop_of_queue_nil]

theorem responderAt_reachable (p : Phase) : ManagerReachable (responderAt p) :=
  ManagerReachable.external _ _
    (ManagerReachable.createState Manager.init { ip := 1, port := 4000 } inboundGood
      ManagerReachable.init) rfl rfl

/-! ## Claims on `EstablishmentManager` -/

/-- C6, evaluated where it fails and where it holds. Initiator, phase
CREATED_RECEIVED, `verifyCreationSignature` false: `processCreated` sets
FAILURE and returns without posting, so once the queue is empty no signal has
been emitted, the endpoint still has its state entry and its timer, and no
timer was cancelled. Responder, phase CONFIRMED_RECEIVED,
`verifyConfirmationSignature` false: `processConfirmed` sets FAILURE and posts,
and the failure signal is emitted, both entries are removed and the timer is
cancelled. Neither adds a `PeerState`. -/
theorem bad_creation_signature_not_signalled :
    (badCreationRun.queue = [] ∧
      (badCreationRun.objects 0).state = Phase.FAILURE ∧
      badCreationRun.signals = [] ∧
      tableFind badCreationRun.stateTable { ip := 1, port := 4000 } = some 0 ∧
      tableFind badCreationRun.stateTimers { ip := 1, port := 4000 }
        = some (some { id := 0, seconds := 10, target := 0 }) ∧
      badCreationRun.cancelled = [] ∧
      badCreationRun.peers = []) ∧
    (badConfirmationRun.queue = [] ∧
      (badConfirmationRun.objects 0).state = Phase.FAILURE ∧
      badConfirmationRun.signals = [Signal.failure 0] ∧
      tableFind badConfirmationRun.stateTable { ip := 1, port := 4000 } = none ∧
      tableFind badConfirmationRun.stateTimers { ip := 1, port := 4000 } = none ∧
      badConfirmationRun.cancelled = [0] ∧
      badConfirmationRun.peers = []) := by
  decide

/-- C7. Handshake success: for a state registered under its endpoint in a
reachable manager with an empty queue, in phase CREATED_RECEIVED with a
verifying creation signature (initiator) or in phase CONFIRMED_RECEIVED with a
verifying confirmation signature (responder), `stateChanged` followed by the
event loop (two continuations are enough) ends with an empty queue, exactly one
`PeerState` for the endpoint added, exactly one signal emitted, the established
signal carrying the peer's identity hash and the flag `direction = INBOUND`, and
the endpoint in neither the state table nor the timer table. -/
theorem handshake_success (m : Manager) (es fuel : Nat)
    (hr : ManagerReachable m) (hq : m.queue = [])
    (hreg : tableFind m.stateTable (m.objects es).theirEndpoint = some es)
    (hok : ((m.objects es).state = Phase.CREATED_RECEIVED ∧
              (m.objects es).verifyCreationSignature = true) ∨
           ((m.objects es).state = Phase.CONFIRMED_RECEIVED ∧
              (m.objects es).verifyConfirmationSignature = true))
    (hfuel : 2 ≤ fuel) :
    (runLoop fuel (stateChanged m es)).queue = [] ∧
    (runLoop fuel (stateChanged m es)).peers =
      m.peers ++ [{ endpoint := (m.objects es).theirEndpoint,
                    identity := (m.objects es).theirIdentity }] ∧
    (runLoop fuel (stateChanged m es)).signals =
      m.signals ++ [Signal.established (m.objects es).theirIdentity
        (decide ((m.objects es).direction = Direction.INBOUND))] ∧
    tableFind (runLoop fuel (stateChanged m es)).stateTable (m.objects es).theirEndpoint
      = none ∧
    tableFind (runLoop fuel (stateChanged m es)).stateTimers (m.objects es).theirEndpoint
      = none := by
  obtain ⟨timer, ht⟩ := (tablesInv_of_reachable m hr).1 _ _ hreg
  obtain ⟨n, rfl⟩ : ∃ n, fuel = n + 2 := ⟨fuel - 2, by omega⟩
  rcases hok with ⟨hp, hv⟩ | ⟨hp, hv⟩
  · rw [created_ok_run m es timer n hq ht hp hv]
    simp [tableFind_tableErase]
  · rw [confirmed_ok_run m es timer n hq ht hp hv]
    simp [tableFind_tableErase]

/-- Witness of C7: the responder's state for 1:4000 in phase CONFIRMED_RECEIVED
with a verifying signature. -/
theorem handshake_success_witness :
    (runLoop 2 (stateChanged (responderAt Phase.CONFIRMED_RECEIVED) 0)).peers
      = [{ endpoint := { ip := 1, port := 4000 }, identity := 42 }] ∧
    (runLoop 2 (stateChanged (responderAt Phase.CONFIRMED_RECEIVED) 0)).signals
      = [Signal.established 42 true] :=
  ⟨(handshake_success (responderAt Phase.CONFIRMED_RECEIVED) 0 2
      (responderAt_reachable _) rfl (by decide) (Or.inr ⟨by decide, by decide⟩)
      (by decide)).2.1,
   (handshake_success (responderAt Phase.CONFIRMED_RECEIVED) 0 2
      (responderAt_reachable _) rfl (by decide) (Or.inr ⟨by decide, by decide⟩)
      (by decide)).2.2.1⟩

/-- The timeout path when no continuation is pending: both `createState`
overloads leave, under the endpoint, the new state and a timer of 10 seconds
bound to it; and when `timeoutCallback` runs without error for a state still
registered under its endpoint in a reachable manager with an empty queue,
whatever its phase, it moves the state to FAILURE, and the event loop (two
continuations are enough) ends with the failure signal for the peer emitted and
the endpoint in neither the state table nor the timer table. -/
theorem handshake_timeout (m m0 : Manager) (ep : Endpoint) (ri : RouterHash)
    (fresh : EstablishmentState) (es fuel : Nat)
    (hr : ManagerReachable m) (hq : m.queue = [])
    (hreg : tableFind m.stateTable (m.objects es).theirEndpoint = some es)
    (hfuel : 2 ≤ fuel) :
    (tableFind (createState m0 ep fresh).1.stateTable ep = some (createState m0 ep fresh).2 ∧
      tableFind (createState m0 ep fresh).1.stateTimers ep =
        some (some { id := m0.nextTimer, seconds := 10,
                     target := (createState m0 ep fresh).2 })) ∧
    (tableFind (createStateWith m0 ep ri fresh).stateTable ep = some m0.nextObject ∧
      tableFind (createStateWith m0 ep ri fresh).stateTimers ep =
        some (some { id := m0.nextTimer, seconds := 10, target := m0.nextObject })) ∧
    ((timeoutCallback m false es).objects es).state = Phase.FAILURE ∧
    (runLoop fuel (timeoutCallback m false es)).queue = [] ∧
    ((runLoop fuel (timeoutCallback m false es)).objects es).state = Phase.FAILURE ∧
    (runLoop fuel (timeoutCallback m false es)).signals =
      m.signals ++ [Signal.failure (m.objects es).theirIdentity] ∧
    tableFind (runLoop fuel (timeoutCallback m false es)).stateTable
      (m.objects es).theirEndpoint = none ∧
    tableFind (runLoop fuel (timeoutCallback m false es)).stateTimers
      (m.objects es).theirEndpoint = none := by
  obtain ⟨timer, ht⟩ := (tablesInv_of_reachable m hr).1 _ _ hreg
  obtain ⟨n, rfl⟩ : ∃ n, fuel = n + 2 := ⟨fuel - 2, by omega⟩
  refine ⟨⟨?_, ?_⟩, ⟨?_, ?_⟩, ?_, ?_⟩
  · simp [createState, armTimer, registerState, tableFind_tableSet]
  · simp [createState, armTimer, registerState, tableFind_tableSet, time_duration]
  · simp [createStateWith, armTimer, registerState, sendRequest, post, postContinuation,
      setState, sendPacket, tableFind_tableSet]
  · simp [createStateWith, armTimer, registerState, sendRequest, post, postContinuation,
      setState, sendPacket, tableFind_tableSet, time_duration]
  · simp [timeoutCallback, post, postContinuation, setState]
  · rw [timeout_run m es timer n hq ht]
    simp [tableFind_tableErase]

/-- The timeout path at the responder's state for 1:4000, still in phase
REQUEST_RECEIVED when its timer expires, nothing pending. -/
theorem handshake_timeout_witness :
    (runLoop 2 (timeoutCallback (responderAt Phase.REQUEST_RECEIVED) false 0)).signals
      = [Signal.failure 42] ∧
    tableFind (runLoop 2 (timeoutCallback (responderAt Phase.REQUEST_RECEIVED) false 0)).stateTable
      { ip := 1, port := 4000 } = none :=
  ⟨(handshake_timeout (responderAt Phase.REQUEST_RECEIVED) Manager.init
      { ip := 1, port := 4000 } 0 inboundGood 0 2
      (responderAt_reachable _) rfl (by decide) (by decide)).2.2.2.2.2.1,
   (handshake_timeout (responderAt Phase.REQUEST_RECEIVED) Manager.init
      { ip := 1, port := 4000 } 0 inboundGood 0 2
      (responderAt_reachable _) rfl (by decide) (by decide)).2.2.2.2.2.2.1⟩

/-- C8, evaluated where it fails: the deadline expires without error while
the state is registered and a `stateChanged` for it is still queued. First run:
`createState(ep, ri)` has registered state 0 with its 10-second timer and
`sendRequest` has posted it; the expiry comes before the loop runs. Second run:
the responder's state is in phase CONFIRMED_RECEIVED and posted. In both,
`stateChanged` runs twice on the failed state: the failure signal is emitted
twice, and the second `delState` reads `m_stateTimers[ep]` for the endpoint it
has just erased, which leaves a null entry for the endpoint in the timer
table. -/
theorem timeout_with_posted_state_keeps_timer_entry :
    (tableFind (createStateWith Manager.init { ip := 1, port := 4000 } 77
        outboundBadCreation).stateTable { ip := 1, port := 4000 } = some 0 ∧
      tableFind (createStateWith Manager.init { ip := 1, port := 4000 } 77
        outboundBadCreation).stateTimers { ip := 1, port := 4000 }
        = some (some { id := 0, seconds := 10, target := 0 }) ∧
      (createStateWith Manager.init { ip := 1, port := 4000 } 77
        outboundBadCreation).queue = [Continuation.stateChanged 0] ∧
      expiryBeforeFirstRun.queue = [] ∧
      (expiryBeforeFirstRun.objects 0).state = Phase.FAILURE ∧
      expiryBeforeFirstRun.signals = [Signal.failure 77, Signal.failure 77] ∧
      tableFind expiryBeforeFirstRun.stateTable { ip := 1, port := 4000 } = none ∧
      tableFind expiryBeforeFirstRun.stateTimers { ip := 1, port := 4000 } = some none ∧
      expiryBeforeFirstRun.stateTimers = [({ ip := 1, port := 4000 }, none)]) ∧
    (tableFind (post (responderAt Phase.CONFIRMED_RECEIVED) 0).stateTable
        { ip := 1, port := 4000 } = some 0 ∧
      (post (responderAt Phase.CONFIRMED_RECEIVED) 0).queue
        = [Continuation.stateChanged 0] ∧
      expiryWhilePosted.queue = [] ∧
      (expiryWhilePosted.objects 0).state = Phase.FAILURE ∧
      expiryWhilePosted.signals = [Signal.failure 42, Signal.failure 42] ∧
      tableFind expiryWhilePosted.stateTable { ip := 1, port := 4000 } = none ∧
      tableFind expiryWhilePosted.stateTimers { ip := 1, port := 4000 } = some none ∧
      expiryWhilePosted.stateTimers = [({ ip := 1, port := 4000 }, none)]) := by
  decide

/-- Counterexample to C9 as worded: after `createState` for 1:4000 and for
1:4001 the state table has an entry for each, two endpoints with one IP. -/
theorem two_states_for_one_ip :
    ¬ OnePerIP
      (createState (createState Manager.init { ip := 1, port := 4000 } inboundGood).1
        { ip := 1, port := 4001 } inboundGood).1 := by
  intro h
  have := h { ip := 1, port := 4000 } { ip := 1, port := 4001 }
    (by decide) (by decide) rfl
  exact absurd this (by decide)

/-- C9 as amended. The bound is per endpoint: in every reachable manager the
state table has no endpoint twice, so at most one establishment state per
`(ip, udp_port)`; and two `createState` calls for endpoints that share an IP and
differ in port leave an entry for each. -/
theorem one_state_per_endpoint (m : Manager) (ip p1 p2 : Nat)
    (f1 f2 : EstablishmentState) (hr : ManagerReachable m) (hne : p1 ≠ p2) :
    (m.stateTable.map Prod.fst).Nodup ∧
    tableFind
      (createState (createState m { ip := ip, port := p1 } f1).1
        { ip := ip, port := p2 } f2).1.stateTable { ip := ip, port := p1 }
      = some m.nextObject ∧
    tableFind
      (createState (createState m { ip := ip, port := p1 } f1).1
        { ip := ip, port := p2 } f2).1.stateTable { ip := ip, port := p2 }
      = some (m.nextObject + 1) := by
  refine ⟨(tablesInv_of_reachable m hr).2, ?_, ?_⟩
  · simp [createState, armTimer, registerState, tableFind_tableSet, hne]
  · simp [createState, armTimer, registerState, tableFind_tableSet]

/-- Witness of C9 as amended: the manager after `createState` for 1:4000,
then the ports 4000 and 4001 of IP 1. -/
theorem one_state_per_endpoint_witness :
    ((responderAt Phase.UNKNOWN).stateTable.map Prod.fst).Nodup ∧
    tableFind
      (createState (createState (responderAt Phase.UNKNOWN) { ip := 1, port := 4000 }
        inboundGood).1 { ip := 1, port := 4001 } inboundGood).1.stateTable
      { ip := 1, port := 4000 } = some 1 :=
  ⟨(one_state_per_endpoint (responderAt Phase.UNKNOWN) 1 4000 4001 inboundGood inboundGood
      (responderAt_reachable _) (by decide)).1,
   (one_state_per_endpoint (responderAt Phase.UNKNOWN) 1 4000 4001 inboundGood inboundGood
      (responderAt_reachable _) (by decide)).2.1⟩

/-! ## Timer expiry for a state that is no longer registered -/

theorem stale_timeout_run (m : Manager) (es n : Nat) (hq : m.queue = []) :
    (runLoop (n + 2) (timeoutCallback m false es)).queue = [] ∧
    ((runLoop (n + 2) (timeoutCallback m false es)).objects es).state = Phase.FAILURE ∧
    (runLoop (n + 2) (timeoutCallback m false es)).signals
      = m.signals ++ [Signal.failure (m.objects es).theirIdentity] ∧
    (runLoop (n + 2) (timeoutCallback m false es)).stateTable
      = tableErase m.stateTable (m.objects es).theirEndpoint := by
  cases ht : tableFind m.stateTimers (m.objects es).theirEndpoint with
  | none =>
    simp [timeoutCallback, post, postContinuation, setState, hq, runLoop, runContinuation,
      stateChanged, delState, ht, runLoop_of_queue_nil]
  | some o =>
    cases o with
    | none =>
      simp [timeoutCallback, post, postContinuation, setState, hq, runLoop,
        runContinuation, stateChanged, delState, ht, runLoop_of_queue_nil]
    | some timer =>
      simp [timeoutCallback, post, postContinuation, setState, hq, runLoop,
        runContinuation, stateChanged, delState, ht, runLoop_of_queue_nil]

/-! ## The event loop with continuations already pending -/

end SSU
end i2pcpp
